import Mathlib

/-!
Verification development for the BigDataStructure repository: a shallow
embedding of the schema model (`schema_analyzer.py`), the size estimator
(`size_calculator.py`) and the sharding statistics engine
(`statistics_calculator.py`), together with theorems settling the
specification's claims about them.

Modelling conventions:
* Python dicts of schema properties are projected onto structures holding
  exactly the keys the embedded functions read (`maxLength`, `minLength`,
  `items`); a Python dict value of `None` is `Option.none`.
* `defaultdict(int)` distributions are association lists `List (K × Nat)`
  in insertion order; the keys of a reachable distribution are distinct,
  exactly as for a Python dict.
* Python's float arithmetic in `get_statistics` is modelled by exact
  rational arithmetic (`ℚ`); Python's `round(x, n)` (round to nearest,
  ties to even, on binary floats) is modelled by round-to-nearest on ℚ —
  the two agree except at exact ties, which no statement below touches.
  `std_deviation = sqrt(variance)` is irrational in general and is not a
  stored field of the embedded record; it is zero, and equal across runs,
  exactly when `variance` is.
* Functions that can raise (`analyze_sharding`, `get_statistics`,
  `compare_sharding_strategies`) return `Except String`.
-/

namespace SchemaAnalyser

/-- Projection of a JSON-Schema `items` descriptor: the keys the size
calculator can read. In Python the whole dict is tested for truthiness
(`if field.is_array and field.items:`), so an empty dict is falsy. -/
structure ItemsDesc where
  type : Option String := none
  minLength : Option Nat := none
  maxLength : Option Nat := none
deriving DecidableEq

/-- Truthiness of the `items` dict: a dict is truthy iff non-empty. -/
def ItemsDesc.truthy (d : ItemsDesc) : Bool :=
  d.type.isSome || d.minLength.isSome || d.maxLength.isSome

/-- Projection of a field's schema-properties dict: the keys read by
`SizeCalculator`. A missing `properties` argument (`properties or {}` in
Python) is the all-`none` record. -/
structure Props where
  maxLength : Option Nat := none
  minLength : Option Nat := none
  items : Option ItemsDesc := none
deriving DecidableEq

/-- `schema_analyzer.Field`: name, declared type and properties. -/
structure Field where
  name : String
  type : String
  properties : Props
deriving DecidableEq

/-- `Field.is_array`, set in `Field.__init__` as `field_type == "array"`. -/
def Field.is_array (f : Field) : Bool := f.type == "array"

/-- `Field.is_object`, set in `Field.__init__` as `field_type == "object"`. -/
def Field.is_object (f : Field) : Bool := f.type == "object"

/-- `Field.items`, set in `Field.__init__` as `properties.get("items", None)`. -/
def Field.items (f : Field) : Option ItemsDesc := f.properties.items

/-- `schema_analyzer.Collection`: name, field map (insertion-ordered
association list, distinct names) and a document count. -/
structure Collection where
  name : String
  fields : List (String × Field)
  document_count : Nat
deriving DecidableEq

/-- `SizeCalculator.TYPE_SIZES`: the per-type byte baseline dict. -/
def TYPE_SIZES (field_type : String) : Option Nat :=
  if field_type = "string" then some 50
  else if field_type = "number" then some 8
  else if field_type = "integer" then some 4
  else if field_type = "boolean" then some 1
  else if field_type = "array" then some 16
  else if field_type = "object" then some 24
  else if field_type = "null" then some 0
  else none

/-- `SizeCalculator.get_type_size`: baseline lookup with `.get(t, 50)`
fallback, refined for strings by `maxLength`, then `minLength`. -/
def get_type_size (field_type : String) (properties : Props) : Nat :=
  let base_size := (TYPE_SIZES field_type).getD 50
  if field_type = "string" then
    match properties.maxLength with
    | some m => m
    | none =>
      match properties.minLength with
      | some m => m
      | none => base_size
  else base_size

/-- The body of the per-field loop of
`SizeCalculator.calculate_document_size`: the resolved byte size of one
field (before the fixed 8-byte field-name overhead is added). -/
def field_resolved_size (field : Field) : Nat :=
  let field_size := get_type_size field.type field.properties
  let field_size :=
    match field.items with
    | some d =>
      if field.is_array && d.truthy then
        let item_type := d.type.getD "object"
        let item_size := get_type_size item_type {}
        item_size * 5 + 16
      else field_size
    | none => field_size
  if field.is_object then 24 else field_size

/-- `SizeCalculator.calculate_document_size`: 24-byte wrapper overhead,
then for each field its resolved size plus 8 bytes of name overhead. -/
def calculate_document_size (collection : Collection) : Nat :=
  collection.fields.foldl (fun total_size p => total_size + field_resolved_size p.2 + 8) 24

/-- `ShardingStatistics`: a distribution (insertion-ordered association
list standing for the `defaultdict(int)`) and the running total. -/
structure ShardingStatistics (K : Type) where
  collection_name : String
  sharding_key : String
  distribution : List (K × Nat)
  total_documents : Nat
deriving DecidableEq

/-- `ShardingStatistics.__init__`: empty distribution, zero total. -/
def ShardingStatistics.init (K : Type) (collection_name sharding_key : String) :
    ShardingStatistics K :=
  ⟨collection_name, sharding_key, [], 0⟩

variable {K : Type} [DecidableEq K]

/-- Increment the count stored at key `k` (the `defaultdict` write
`self.distribution[key_value] += 1` when the key is already present). -/
def bumpKey (d : List (K × Nat)) (k : K) : List (K × Nat) :=
  d.map fun p => if p.1 = k then (p.1, p.2 + 1) else p

/-- `ShardingStatistics.add_document`: bump the key's count (inserting
the key at the end, as a Python dict does, when absent) and bump the
total. -/
def ShardingStatistics.add_document (st : ShardingStatistics K) (key_value : K) :
    ShardingStatistics K :=
  { st with
    distribution :=
      if st.distribution.any fun p => decide (p.1 = key_value) then
        bumpKey st.distribution key_value
      else st.distribution ++ [(key_value, 1)]
    total_documents := st.total_documents + 1 }

/-- `ShardingStatistics.add_documents_batch`: `add_document` in order. -/
def ShardingStatistics.add_documents_batch (st : ShardingStatistics K) (key_values : List K) :
    ShardingStatistics K :=
  key_values.foldl ShardingStatistics.add_document st

/-- The `list(self.distribution.values())` of `get_statistics`. -/
def valuesOf (st : ShardingStatistics K) : List Nat :=
  st.distribution.map Prod.snd

/-- Python's `min` over a non-empty list (the `[]` case is the
`ValueError` branch, routed through `Except` by `get_statistics`). -/
def pymin : List Nat → Nat
  | [] => 0
  | [x] => x
  | x :: y :: t => Nat.min x (pymin (y :: t))

/-- Python's `max` over a non-empty list. -/
def pymax : List Nat → Nat
  | [] => 0
  | [x] => x
  | x :: y :: t => Nat.max x (pymax (y :: t))

/-- `avg_docs = self.total_documents / unique_shards` (exact rational). -/
def avgQ (st : ShardingStatistics K) : ℚ :=
  (st.total_documents : ℚ) / (st.distribution.length : ℚ)

/-- `variance = sum((x - avg_docs) ** 2 for x in values) / unique_shards`
(exact rational, population variance). -/
def varQ (st : ShardingStatistics K) : ℚ :=
  (((valuesOf st).map fun (x : Nat) => ((x : ℚ) - avgQ st) ^ 2).sum) /
    (st.distribution.length : ℚ)

/-- `balance_factor = (max_docs - min_docs) / avg_docs if avg_docs > 0
else 0` (exact rational). -/
def balQ (st : ShardingStatistics K) : ℚ :=
  if 0 < avgQ st then
    ((pymax (valuesOf st) : ℚ) - (pymin (valuesOf st) : ℚ)) / avgQ st
  else 0

/-- Python's `round(q, ndigits)` on exact rationals: round to nearest
(the binary-float tie-to-even behaviour differs only at exact ties,
which no theorem below exercises). -/
def roundTo (ndigits : Nat) (q : ℚ) : ℚ :=
  ((round (q * 10 ^ ndigits) : ℤ) : ℚ) / 10 ^ ndigits

/-- The dict returned by `ShardingStatistics.get_statistics`: `Option`
fields are the keys present only in one of the two branches (`error`
only in the empty-input branch, the metrics only in the non-empty one).
`std_deviation` is `sqrt(variance)` and is not stored (see the header
comment). -/
structure Statistics (K : Type) where
  collection : String
  sharding_key : String
  total_documents : Nat
  unique_shard_values : Nat
  error : Option String := none
  min_documents_per_shard : Option Nat := none
  max_documents_per_shard : Option Nat := none
  avg_documents_per_shard : Option ℚ := none
  variance : Option ℚ := none
  balance_factor : Option ℚ := none
  distribution : Option (List (K × Nat)) := none
deriving DecidableEq

/-- `ShardingStatistics.get_statistics`: the distinguished empty result
when `total_documents == 0`, otherwise the metrics record. A non-empty
total with an empty distribution would hit Python's `min([])`
`ValueError`; that unreachable state is the `Except.error` branch. -/
def ShardingStatistics.get_statistics (st : ShardingStatistics K) :
    Except String (Statistics K) :=
  if st.total_documents = 0 then
    Except.ok
      { collection := st.collection_name
        sharding_key := st.sharding_key
        total_documents := 0
        unique_shard_values := 0
        error := some "No documents in collection" }
  else if valuesOf st = [] then
    Except.error "ValueError: min() arg is an empty sequence"
  else
    Except.ok
      { collection := st.collection_name
        sharding_key := st.sharding_key
        total_documents := st.total_documents
        unique_shard_values := st.distribution.length
        min_documents_per_shard := some (pymin (valuesOf st))
        max_documents_per_shard := some (pymax (valuesOf st))
        avg_documents_per_shard := some (roundTo 2 (avgQ st))
        variance := some (roundTo 2 (varQ st))
        balance_factor := some (roundTo 4 (balQ st))
        distribution := some st.distribution }

/-- `doc_count = sample_size or collection.document_count`: Python's
`or` falls back when `sample_size` is `None` or the falsy `0`. -/
def resolve_doc_count (sample_size : Option Nat) (document_count : Nat) : Nat :=
  match sample_size with
  | some n => if n = 0 then document_count else n
  | none => document_count

/-- `shard_count = min(10, max(1, doc_count // 100))` of the default
branch of `analyze_sharding`. -/
def default_shard_count (doc_count : Nat) : Nat :=
  min 10 (max 1 (doc_count / 100))

/-- The `key_values` list built by `analyze_sharding`: the generator
applied to `range(doc_count)` when supplied, otherwise the synthetic
buckets `shard_values[i % len(shard_values)]` with
`shard_values = list(range(shard_count))`. -/
def simulated_key_values (key_value_generator : Option (Nat → Int)) (doc_count : Nat) :
    List Int :=
  match key_value_generator with
  | some g => (List.range doc_count).map g
  | none =>
    let shard_count := default_shard_count doc_count
    (List.range doc_count).map fun i => ((i % shard_count : Nat) : Int)

/-- `StatisticsCalculator.analyze_sharding`: fail fast when the sharding
key is absent from the field map, otherwise accumulate the simulated key
values into a fresh `ShardingStatistics`. -/
def analyze_sharding (collection : Collection) (sharding_key : String)
    (key_value_generator : Option (Nat → Int)) (sample_size : Option Nat) :
    Except String (ShardingStatistics Int) :=
  if sharding_key ∈ collection.fields.map Prod.fst then
    let doc_count := resolve_doc_count sample_size collection.document_count
    Except.ok ((ShardingStatistics.init Int collection.name sharding_key).add_documents_batch
      (simulated_key_values key_value_generator doc_count))
  else
    Except.error ("Sharding key '" ++ sharding_key ++ "' not found in collection schema")

/-- `StatisticsCalculator.compare_sharding_strategies`: one
`analyze_sharding` + `get_statistics` per key, results in input order;
an exception for any key propagates and aborts the whole batch. The
`key_generators` dict (defaulting to `{}`) is its `.get` function. -/
def compare_sharding_strategies (collection : Collection) (sharding_keys : List String)
    (key_generators : String → Option (Nat → Int)) :
    Except String (List (Statistics Int)) :=
  match sharding_keys with
  | [] => Except.ok []
  | key :: rest =>
    match analyze_sharding collection key (key_generators key) none with
    | Except.error e => Except.error e
    | Except.ok stats =>
      match stats.get_statistics with
      | Except.error e => Except.error e
      | Except.ok record =>
        match compare_sharding_strategies collection rest key_generators with
        | Except.error e => Except.error e
        | Except.ok others => Except.ok (record :: others)

/-- One independent `analyze_sharding` call on a single key followed by
`get_statistics` — the unit of work `compare_sharding_strategies`
performs per input key. -/
def single_key_stats (collection : Collection) (key : String)
    (generator : Option (Nat → Int)) : Except String (Statistics Int) :=
  (analyze_sharding collection key generator none).bind ShardingStatistics.get_statistics

/-- Extract the record of a successful statistics computation (junk
record on the error branch; only ever applied to `Except.ok`). -/
def statValue : Except String (Statistics Int) → Statistics Int
  | Except.ok r => r
  | Except.error _ =>
    { collection := "", sharding_key := "", total_documents := 0, unique_shard_values := 0 }

/-! ### Concrete instances used by the theorems below -/

/-- An integer field with no constraints. -/
def idField : Field := { name := "id", type := "integer", properties := {} }

/-- The two-field schema of the worked size example: `_id` a string with
no length constraint, `name` a string with `maxLength` 10. -/
def usersCollection : Collection :=
  { name := "users"
    fields :=
      [("_id", { name := "_id", type := "string", properties := {} }),
       ("name", { name := "name", type := "string", properties := {maxLength := some 10} })]
    document_count := 0 }

/-- An array field with an empty `items` descriptor (`"items": {}`). -/
def emptyItemsField : Field :=
  { name := "tags", type := "array", properties := {items := some {}} }

/-- A collection whose single field is an array with an empty `items`
descriptor (`"items": {}` in the schema). -/
def emptyItemsCollection : Collection :=
  { name := "c"
    fields := [("tags", emptyItemsField)]
    document_count := 0 }

/-- An array field whose `items` descriptor declares a type and a
`minLength` constraint. -/
def taggedArrayField : Field :=
  { name := "tags", type := "array"
    properties := {items := some {type := some "integer", minLength := some 3}} }

/-- A one-field collection with 7 configured documents. -/
def sevenDocCollection : Collection :=
  { name := "c", fields := [("id", idField)], document_count := 7 }

/-- A one-field collection with 3 configured documents. -/
def threeDocCollection : Collection :=
  { name := "c", fields := [("id", idField)], document_count := 3 }

/-- A one-field collection with 250 configured documents. -/
def bigCollection : Collection :=
  { name := "c", fields := [("id", idField)], document_count := 250 }

/-- A two-field collection used to exercise the strategy comparison. -/
def twoKeyCollection : Collection :=
  { name := "c"
    fields := [("id", idField),
      ("name", { name := "name", type := "string", properties := {} })]
    document_count := 12 }

/-- 200 association-list entries: keys 0..198 with count 1, key 199
with count 2. -/
def skewDistList : List (Int × Nat) :=
  ((List.range 199).map fun (i : Nat) => ((i : Int), (1 : Nat))) ++ [(199, 2)]

/-- A distribution of 201 documents over 200 keys: 199 keys hold one
document each and one key holds two. Its exact variance is
199/40000 = 0.004975, which `round(•, 2)` collapses to 0 even though the
counts are not identical. -/
def skewed200 : ShardingStatistics Int :=
  { collection_name := "c", sharding_key := "k"
    distribution := skewDistList
    total_documents := 201 }

/-- A small concrete distribution with unequal counts. -/
def smallSkew : ShardingStatistics Int :=
  { collection_name := "c", sharding_key := "k"
    distribution := [(0, 2), (1, 1)], total_documents := 3 }

/-! ### Association-list distribution lemmas -/

/-- The keys of a distribution, in insertion order. -/
def keysOf (d : List (K × Nat)) : List K := d.map Prod.fst

/-- The sum of all per-key counts of a distribution. -/
def sumCounts (d : List (K × Nat)) : Nat := (d.map Prod.snd).sum

/-- The total count a distribution stores at key `k`. -/
def countOf (d : List (K × Nat)) (k : K) : Nat :=
  ((d.filter fun p => decide (p.1 = k)).map Prod.snd).sum

lemma countOf_cons (p : K × Nat) (t : List (K × Nat)) (k' : K) :
    countOf (p :: t) k' = (if p.1 = k' then p.2 else 0) + countOf t k' := by
  simp only [countOf, List.filter_cons, decide_eq_true_eq]
  by_cases h : p.1 = k'
  · rw [if_pos h, if_pos h]
    simp
  · rw [if_neg h, if_neg h]
    simp

lemma countOf_append (d₁ d₂ : List (K × Nat)) (k : K) :
    countOf (d₁ ++ d₂) k = countOf d₁ k + countOf d₂ k := by
  simp [countOf, List.filter_append]

lemma countOf_singleton (k k' : K) (n : Nat) :
    countOf [(k, n)] k' = if k' = k then n else 0 := by
  rw [countOf_cons]
  by_cases h : k = k'
  · rw [if_pos h, if_pos h.symm]
    simp [countOf]
  · rw [if_neg h, if_neg (fun hc => h hc.symm)]
    simp [countOf]

lemma keysOf_bumpKey (d : List (K × Nat)) (k : K) : keysOf (bumpKey d k) = keysOf d := by
  induction d with
  | nil => rfl
  | cons p t ih =>
    simp only [bumpKey, keysOf, List.map_cons] at ih ⊢
    split <;> simp_all

lemma bumpKey_of_not_mem (d : List (K × Nat)) (k : K) (h : k ∉ keysOf d) :
    bumpKey d k = d := by
  induction d with
  | nil => rfl
  | cons p t ih =>
    simp only [keysOf, List.map_cons, List.mem_cons, not_or] at h
    simp only [bumpKey, List.map_cons] at ih ⊢
    rw [if_neg (fun hk => h.1 hk.symm), ih h.2]

lemma bumpKey_cons (p : K × Nat) (t : List (K × Nat)) (k : K) :
    bumpKey (p :: t) k = (if p.1 = k then (p.1, p.2 + 1) else p) :: bumpKey t k := rfl

omit [DecidableEq K] in
lemma sumCounts_cons (p : K × Nat) (t : List (K × Nat)) :
    sumCounts (p :: t) = p.2 + sumCounts t := by
  simp [sumCounts]

lemma sumCounts_bumpKey (d : List (K × Nat)) (k : K) (hk : k ∈ keysOf d)
    (hnd : (keysOf d).Nodup) : sumCounts (bumpKey d k) = sumCounts d + 1 := by
  induction d with
  | nil => simp [keysOf] at hk
  | cons p t ih =>
    simp only [keysOf, List.map_cons, List.nodup_cons] at hnd
    simp only [keysOf, List.map_cons, List.mem_cons] at hk
    rw [bumpKey_cons]
    rcases hk with hk | hk
    · rw [if_pos hk.symm, bumpKey_of_not_mem t k (hk ▸ hnd.1), sumCounts_cons, sumCounts_cons]
      omega
    · have hpk : ¬p.1 = k := fun h => hnd.1 (h ▸ hk)
      rw [if_neg hpk, sumCounts_cons, sumCounts_cons, ih hk hnd.2]
      omega

lemma countOf_bumpKey (d : List (K × Nat)) (k k' : K) (hnd : (keysOf d).Nodup) :
    countOf (bumpKey d k) k' = countOf d k' + if k' = k ∧ k ∈ keysOf d then 1 else 0 := by
  induction d with
  | nil => simp [countOf, bumpKey, keysOf]
  | cons p t ih =>
    simp only [keysOf, List.map_cons, List.nodup_cons] at hnd
    have ih' := ih hnd.2
    rw [bumpKey_cons]
    have hkeys : k ∈ keysOf (p :: t) ↔ k = p.1 ∨ k ∈ keysOf t := by
      simp [keysOf, List.mem_cons]
    by_cases hpk : p.1 = k
    · rw [if_pos hpk, bumpKey_of_not_mem t k (hpk ▸ hnd.1), countOf_cons, countOf_cons]
      have hmem : k ∈ keysOf (p :: t) := hkeys.mpr (Or.inl hpk.symm)
      by_cases hkk : k' = k
      · rw [if_pos (hpk.trans hkk.symm), if_pos (hpk.trans hkk.symm), if_pos ⟨hkk, hmem⟩]
        omega
      · have hne : ¬p.1 = k' := fun h => hkk ((h.symm).trans hpk)
        rw [if_neg hne, if_neg hne, if_neg (fun hc => hkk hc.1)]
        omega
    · rw [if_neg hpk, countOf_cons, countOf_cons, ih']
      have hiff : (k' = k ∧ k ∈ keysOf t) ↔ (k' = k ∧ k ∈ keysOf (p :: t)) := by
        constructor
        · rintro ⟨h1, h2⟩
          exact ⟨h1, hkeys.mpr (Or.inr h2)⟩
        · rintro ⟨h1, h2⟩
          refine ⟨h1, ?_⟩
          rcases hkeys.mp h2 with h | h
          · exact absurd h.symm hpk
          · exact h
      rw [if_congr hiff rfl rfl]
      omega

lemma any_eq_mem_keys (d : List (K × Nat)) (k : K) :
    (d.any fun p => decide (p.1 = k)) = true ↔ k ∈ keysOf d := by
  simp only [List.any_eq_true, decide_eq_true_eq, keysOf, List.mem_map]

lemma keysOf_add_document (st : ShardingStatistics K) (k : K) :
    keysOf (st.add_document k).distribution =
      if k ∈ keysOf st.distribution then keysOf st.distribution
      else keysOf st.distribution ++ [k] := by
  simp only [ShardingStatistics.add_document]
  by_cases h : k ∈ keysOf st.distribution
  · rw [if_pos ((any_eq_mem_keys _ _).mpr h), if_pos h, keysOf_bumpKey]
  · rw [if_neg (fun hc => h ((any_eq_mem_keys _ _).mp hc)), if_neg h]
    simp [keysOf]

lemma nodup_keys_add_document (st : ShardingStatistics K) (k : K)
    (h : (keysOf st.distribution).Nodup) :
    (keysOf (st.add_document k).distribution).Nodup := by
  rw [keysOf_add_document]
  split
  · exact h
  · next hk =>
    refine List.Nodup.append h (List.nodup_singleton k) ?_
    intro a ha hb
    simp only [List.mem_singleton] at hb
    exact hk (hb ▸ ha)

lemma mem_keys_add_document (st : ShardingStatistics K) (k k' : K) :
    k' ∈ keysOf (st.add_document k).distribution ↔
      k' ∈ keysOf st.distribution ∨ k' = k := by
  rw [keysOf_add_document]
  split
  · next h =>
    constructor
    · exact Or.inl
    · rintro (hm | rfl)
      · exact hm
      · exact h
  · simp

lemma sumCounts_add_document (st : ShardingStatistics K) (k : K)
    (h : (keysOf st.distribution).Nodup) :
    sumCounts (st.add_document k).distribution = sumCounts st.distribution + 1 := by
  simp only [ShardingStatistics.add_document]
  by_cases hk : k ∈ keysOf st.distribution
  · rw [if_pos ((any_eq_mem_keys _ _).mpr hk)]
    exact sumCounts_bumpKey _ _ hk h
  · rw [if_neg (fun hc => hk ((any_eq_mem_keys _ _).mp hc))]
    simp [sumCounts]

lemma countOf_add_document (st : ShardingStatistics K) (k k' : K)
    (h : (keysOf st.distribution).Nodup) :
    countOf (st.add_document k).distribution k' =
      countOf st.distribution k' + if k' = k then 1 else 0 := by
  simp only [ShardingStatistics.add_document]
  by_cases hk : k ∈ keysOf st.distribution
  · rw [if_pos ((any_eq_mem_keys _ _).mpr hk)]
    rw [countOf_bumpKey _ _ _ h]
    congr 1
    by_cases hkk : k' = k
    · rw [if_pos ⟨hkk, hk⟩, if_pos hkk]
    · rw [if_neg (fun hc => hkk hc.1), if_neg hkk]
  · rw [if_neg (fun hc => hk ((any_eq_mem_keys _ _).mp hc))]
    rw [countOf_append, countOf_singleton]

lemma total_add_document (st : ShardingStatistics K) (k : K) :
    (st.add_document k).total_documents = st.total_documents + 1 := rfl

lemma add_documents_batch_nil (st : ShardingStatistics K) :
    st.add_documents_batch [] = st := rfl

lemma add_documents_batch_cons (st : ShardingStatistics K) (k : K) (ks : List K) :
    st.add_documents_batch (k :: ks) = (st.add_document k).add_documents_batch ks := rfl

lemma nodup_keys_batch (st : ShardingStatistics K) (ks : List K)
    (h : (keysOf st.distribution).Nodup) :
    (keysOf (st.add_documents_batch ks).distribution).Nodup := by
  induction ks generalizing st with
  | nil => exact h
  | cons k ks ih =>
    rw [add_documents_batch_cons]
    exact ih _ (nodup_keys_add_document st k h)

lemma total_batch (st : ShardingStatistics K) (ks : List K) :
    (st.add_documents_batch ks).total_documents = st.total_documents + ks.length := by
  induction ks generalizing st with
  | nil => simp [add_documents_batch_nil]
  | cons k ks ih =>
    rw [add_documents_batch_cons, ih, total_add_document]
    simp only [List.length_cons]
    omega

lemma sumCounts_batch (st : ShardingStatistics K) (ks : List K)
    (h : (keysOf st.distribution).Nodup) :
    sumCounts (st.add_documents_batch ks).distribution =
      sumCounts st.distribution + ks.length := by
  induction ks generalizing st with
  | nil => simp [add_documents_batch_nil]
  | cons k ks ih =>
    rw [add_documents_batch_cons, ih _ (nodup_keys_add_document st k h),
      sumCounts_add_document st k h]
    simp only [List.length_cons]
    omega

lemma countOf_batch (st : ShardingStatistics K) (ks : List K) (k' : K)
    (h : (keysOf st.distribution).Nodup) :
    countOf (st.add_documents_batch ks).distribution k' =
      countOf st.distribution k' + ks.count k' := by
  induction ks generalizing st with
  | nil => simp [add_documents_batch_nil]
  | cons k ks ih =>
    rw [add_documents_batch_cons, ih _ (nodup_keys_add_document st k h),
      countOf_add_document st k k' h, List.count_cons]
    have : (if k' = k then 1 else 0) = (if k == k' then 1 else 0) := by
      by_cases hkk : k' = k
      · rw [if_pos hkk, if_pos (by simp [hkk])]
      · rw [if_neg hkk, if_neg (by simp; exact fun hc => hkk hc.symm)]
    omega

lemma mem_keys_batch (st : ShardingStatistics K) (ks : List K) (k' : K) :
    k' ∈ keysOf (st.add_documents_batch ks).distribution ↔
      k' ∈ keysOf st.distribution ∨ k' ∈ ks := by
  induction ks generalizing st with
  | nil => simp [add_documents_batch_nil]
  | cons k ks ih =>
    rw [add_documents_batch_cons, ih, mem_keys_add_document]
    simp only [List.mem_cons]
    tauto

/-- With distinct keys, the count stored in an entry of the distribution
is exactly what `countOf` reads back at that entry's key. -/
lemma entry_eq_countOf (d : List (K × Nat)) (p : K × Nat)
    (hnd : (keysOf d).Nodup) (hp : p ∈ d) : countOf d p.1 = p.2 := by
  induction d with
  | nil => simp at hp
  | cons q t ih =>
    simp only [keysOf, List.map_cons, List.nodup_cons] at hnd
    rcases List.mem_cons.mp hp with rfl | hp
    · rw [countOf_cons, if_pos rfl]
      have : countOf t p.1 = 0 := by
        simp only [countOf]
        have : t.filter (fun q => decide (q.1 = p.1)) = [] := by
          rw [List.filter_eq_nil_iff]
          intro q hq
          simp only [decide_eq_true_eq]
          exact fun he => hnd.1 (he ▸ (List.mem_map_of_mem Prod.fst hq))
        rw [this]
        simp
      omega
    · rw [countOf_cons]
      have hqp : ¬q.1 = p.1 := by
        intro he
        exact hnd.1 (he ▸ (List.mem_map_of_mem Prod.fst hp))
      rw [if_neg hqp, ih hnd.2 hp]
      omega

/-- One recorded mutation of a `ShardingStatistics`: a single
`add_document` call or an `add_documents_batch` call. -/
inductive AddOp (K : Type) where
  | doc (k : K)
  | batch (ks : List K)

/-- Replay a sequence of `add_document` / `add_documents_batch` calls. -/
def runOps (st : ShardingStatistics K) : List (AddOp K) → ShardingStatistics K
  | [] => st
  | AddOp.doc k :: rest => runOps (st.add_document k) rest
  | AddOp.batch ks :: rest => runOps (st.add_documents_batch ks) rest

lemma runOps_invariant (st : ShardingStatistics K) (ops : List (AddOp K))
    (hnd : (keysOf st.distribution).Nodup)
    (hsum : sumCounts st.distribution = st.total_documents) :
    (keysOf (runOps st ops).distribution).Nodup ∧
      sumCounts (runOps st ops).distribution = (runOps st ops).total_documents := by
  induction ops generalizing st with
  | nil => exact ⟨hnd, hsum⟩
  | cons op rest ih =>
    cases op with
    | doc k =>
      exact ih (st.add_document k) (nodup_keys_add_document st k hnd)
        (by rw [sumCounts_add_document st k hnd, total_add_document, hsum])
    | batch ks =>
      exact ih (st.add_documents_batch ks) (nodup_keys_batch st ks hnd)
        (by rw [sumCounts_batch st ks hnd, total_batch, hsum])

/-! ### min / max / variance helper lemmas -/

lemma pymin_le (l : List Nat) (x : Nat) (hx : x ∈ l) : pymin l ≤ x := by
  induction l with
  | nil => simp at hx
  | cons a t ih =>
    cases t with
    | nil =>
      simp only [List.mem_singleton] at hx
      subst hx
      exact le_refl _
    | cons b u =>
      rw [show pymin (a :: b :: u) = Nat.min a (pymin (b :: u)) from rfl]
      rcases List.mem_cons.mp hx with rfl | hx
      · exact Nat.min_le_left _ _
      · exact le_trans (Nat.min_le_right _ _) (ih hx)

lemma le_pymax (l : List Nat) (x : Nat) (hx : x ∈ l) : x ≤ pymax l := by
  induction l with
  | nil => simp at hx
  | cons a t ih =>
    cases t with
    | nil =>
      simp only [List.mem_singleton] at hx
      subst hx
      exact le_refl _
    | cons b u =>
      rw [show pymax (a :: b :: u) = Nat.max a (pymax (b :: u)) from rfl]
      rcases List.mem_cons.mp hx with rfl | hx
      · exact Nat.le_max_left _ _
      · exact le_trans (ih hx) (Nat.le_max_right _ _)

lemma pymin_mem (l : List Nat) (h : l ≠ []) : pymin l ∈ l := by
  induction l with
  | nil => exact absurd rfl h
  | cons a t ih =>
    cases t with
    | nil => simp [pymin]
    | cons b u =>
      have hmm : Nat.min a (pymin (b :: u)) =
          if a ≤ pymin (b :: u) then a else pymin (b :: u) := by
        show min a (pymin (b :: u)) = _
        rw [min_def]
      rw [show pymin (a :: b :: u) = Nat.min a (pymin (b :: u)) from rfl, hmm]
      split
      · exact List.mem_cons_self _ _
      · exact List.mem_cons_of_mem _ (ih (by simp))

lemma pymax_mem (l : List Nat) (h : l ≠ []) : pymax l ∈ l := by
  induction l with
  | nil => exact absurd rfl h
  | cons a t ih =>
    cases t with
    | nil => simp [pymax]
    | cons b u =>
      have hmm : Nat.max a (pymax (b :: u)) =
          if a ≤ pymax (b :: u) then pymax (b :: u) else a := by
        show max a (pymax (b :: u)) = _
        rw [max_def]
      rw [show pymax (a :: b :: u) = Nat.max a (pymax (b :: u)) from rfl, hmm]
      split
      · exact List.mem_cons_of_mem _ (ih (by simp))
      · exact List.mem_cons_self _ _

/-- A sum of squares of rationals vanishes exactly when every term does. -/
lemma sum_sq_eq_zero_iff (l : List ℚ) :
    ((l.map fun x => x ^ 2).sum = 0) ↔ ∀ x ∈ l, x = 0 := by
  induction l with
  | nil => simp
  | cons a t ih =>
    simp only [List.map_cons, List.sum_cons, List.mem_cons]
    constructor
    · intro h
      have hsq : (0:ℚ) ≤ a ^ 2 := sq_nonneg a
      have hts : (0:ℚ) ≤ (t.map fun x => x ^ 2).sum := by
        apply List.sum_nonneg
        intro x hx
        rcases List.mem_map.mp hx with ⟨y, _, rfl⟩
        exact sq_nonneg y
      have ha : a ^ 2 = 0 := by linarith
      have ht : (t.map fun x => x ^ 2).sum = 0 := by linarith
      refine fun x hx => ?_
      rcases hx with rfl | hx
      · exact pow_eq_zero_iff (by norm_num) |>.mp ha
      · exact ih.mp ht x hx
    · intro h
      have ha : a = 0 := h a (Or.inl rfl)
      have ht : (t.map fun x => x ^ 2).sum = 0 := ih.mpr fun x hx => h x (Or.inr hx)
      rw [ha, ht]
      norm_num

/-- The sum of a constant list. -/
lemma sum_of_constant (l : List Nat) (c : Nat) (h : ∀ x ∈ l, x = c) :
    l.sum = l.length * c := by
  induction l with
  | nil => simp
  | cons a t ih =>
    simp only [List.sum_cons, List.length_cons]
    rw [h a (List.mem_cons_self _ _), ih fun x hx => h x (List.mem_cons_of_mem _ hx)]
    ring

omit [DecidableEq K] in
lemma values_ne_nil (st : ShardingStatistics K)
    (hsum : sumCounts st.distribution = st.total_documents)
    (htot : 0 < st.total_documents) : valuesOf st ≠ [] := by
  intro h
  have h0 : sumCounts st.distribution = 0 := by
    rw [sumCounts, show st.distribution.map Prod.snd = valuesOf st from rfl, h]
    rfl
  omega

omit [DecidableEq K] in
lemma length_pos_of_values_ne_nil (st : ShardingStatistics K) (h : valuesOf st ≠ []) :
    0 < st.distribution.length := by
  have h1 : (valuesOf st).length = st.distribution.length := List.length_map _ _
  have h2 := List.length_pos.mpr h
  omega

omit [DecidableEq K] in
lemma avgQ_pos (st : ShardingStatistics K)
    (hsum : sumCounts st.distribution = st.total_documents)
    (htot : 0 < st.total_documents) : 0 < avgQ st := by
  have hlen := length_pos_of_values_ne_nil st (values_ne_nil st hsum htot)
  exact div_pos (by exact_mod_cast htot) (by exact_mod_cast hlen)

omit [DecidableEq K] in
lemma varQ_eq_zero_iff (st : ShardingStatistics K)
    (hsum : sumCounts st.distribution = st.total_documents)
    (htot : 0 < st.total_documents) :
    varQ st = 0 ↔ ∀ x ∈ valuesOf st, ∀ y ∈ valuesOf st, x = y := by
  have hne := values_ne_nil st hsum htot
  have hlen := length_pos_of_values_ne_nil st hne
  have hkQ : (st.distribution.length : ℚ) ≠ 0 := by
    exact_mod_cast hlen.ne'
  have hmap : (valuesOf st).map (fun (x : Nat) => ((x : ℚ) - avgQ st) ^ 2)
      = ((valuesOf st).map fun (x : Nat) => ((x : ℚ) - avgQ st)).map fun y => y ^ 2 := by
    rw [List.map_map]
    rfl
  constructor
  · intro h x hx y hy
    rw [varQ, div_eq_zero_iff] at h
    rcases h with h | h
    · rw [hmap, sum_sq_eq_zero_iff] at h
      have hx' := h _ (List.mem_map_of_mem _ hx)
      have hy' := h _ (List.mem_map_of_mem _ hy)
      have hxy : (x : ℚ) = (y : ℚ) := by linarith
      exact_mod_cast hxy
    · exact absurd h hkQ
  · intro h
    have hcm := pymin_mem _ hne
    have hall : ∀ x ∈ valuesOf st, x = pymin (valuesOf st) := fun x hx => h x hx _ hcm
    have hsumv : (valuesOf st).sum = (valuesOf st).length * pymin (valuesOf st) :=
      sum_of_constant _ _ hall
    have havg : avgQ st = (pymin (valuesOf st) : ℚ) := by
      rw [avgQ, ← hsum, show sumCounts st.distribution = (valuesOf st).sum from rfl, hsumv,
        show (valuesOf st).length = st.distribution.length from List.length_map _ _]
      push_cast
      field_simp
    rw [varQ]
    apply div_eq_zero_iff.mpr
    left
    rw [hmap, sum_sq_eq_zero_iff]
    intro y hy
    rcases List.mem_map.mp hy with ⟨x, hx, rfl⟩
    rw [hall x hx, havg]
    ring

omit [DecidableEq K] in
lemma balQ_eq_zero_iff (st : ShardingStatistics K)
    (hsum : sumCounts st.distribution = st.total_documents)
    (htot : 0 < st.total_documents) :
    balQ st = 0 ↔ ∀ x ∈ valuesOf st, ∀ y ∈ valuesOf st, x = y := by
  have hne := values_ne_nil st hsum htot
  have havg := avgQ_pos st hsum htot
  rw [balQ, if_pos havg, div_eq_zero_iff]
  constructor
  · intro h x hx y hy
    rcases h with h | h
    · have hBA : pymax (valuesOf st) = pymin (valuesOf st) := by
        have : ((pymax (valuesOf st) : ℚ)) = (pymin (valuesOf st) : ℚ) := by linarith
        exact_mod_cast this
      have hx1 := pymin_le _ _ hx
      have hx2 := le_pymax _ _ hx
      have hy1 := pymin_le _ _ hy
      have hy2 := le_pymax _ _ hy
      omega
    · exact absurd h (ne_of_gt havg)
  · intro h
    left
    have hBA : pymax (valuesOf st) = pymin (valuesOf st) :=
      h _ (pymax_mem _ hne) _ (pymin_mem _ hne)
    rw [hBA]
    ring

omit [DecidableEq K] in
lemma balQ_nonneg (st : ShardingStatistics K)
    (hsum : sumCounts st.distribution = st.total_documents)
    (htot : 0 < st.total_documents) : 0 ≤ balQ st := by
  have hne := values_ne_nil st hsum htot
  have havg := avgQ_pos st hsum htot
  rw [balQ, if_pos havg]
  apply div_nonneg _ (le_of_lt havg)
  have := pymin_le _ _ (pymax_mem _ hne)
  have hc : (pymin (valuesOf st) : ℚ) ≤ (pymax (valuesOf st) : ℚ) := by exact_mod_cast this
  linarith

/-! ### Remaining helper lemmas -/

lemma foldl_size_eq_sum (l : List (String × Field)) (n : Nat) :
    l.foldl (fun total_size p => total_size + field_resolved_size p.2 + 8) n =
      n + (l.map fun p => field_resolved_size p.2 + 8).sum := by
  induction l generalizing n with
  | nil => simp
  | cons p t ih =>
    simp only [List.foldl_cons, List.map_cons, List.sum_cons]
    rw [ih]
    omega

/-- How many indices below `N` fall in residue class `j` modulo `s`. -/
lemma count_range_mod (s : Nat) (hs : 0 < s) (N j : Nat) (hj : j < s) :
    ((List.range N).map fun i => i % s).count j =
      N / s + if j < N % s then 1 else 0 := by
  induction N with
  | zero => simp
  | succ n ih =>
    rw [List.range_succ, List.map_append, List.count_append]
    have hone : (List.map (fun i => i % s) [n]).count j = if n % s = j then 1 else 0 := by
      simp only [List.map_cons, List.map_nil]
      rw [List.count_singleton']
    rw [ih, hone]
    have hdm := Nat.div_add_mod n s
    have hmod_lt : n % s < s := Nat.mod_lt n hs
    rcases Nat.lt_or_ge (n % s + 1) s with hlt | hge
    · have hmod : (n + 1) % s = n % s + 1 := by
        conv_lhs => rw [← hdm]
        rw [Nat.add_assoc, Nat.mul_add_mod]
        exact Nat.mod_eq_of_lt hlt
      have hdiv : (n + 1) / s = n / s := by
        conv_lhs => rw [← hdm]
        rw [Nat.add_assoc, Nat.mul_add_div hs, Nat.div_eq_of_lt hlt]
        omega
      rw [hmod, hdiv]
      split_ifs <;> omega
    · have hEq : n % s + 1 = s := by omega
      have hmod : (n + 1) % s = 0 := by
        conv_lhs => rw [← hdm]
        rw [Nat.add_assoc, hEq, show s * (n / s) + s = s * (n / s + 1) by ring]
        exact Nat.mul_mod_right s _
      have hdiv : (n + 1) / s = n / s + 1 := by
        conv_lhs => rw [← hdm]
        rw [Nat.add_assoc, hEq, show s * (n / s) + s = s * (n / s + 1) by ring]
        exact Nat.mul_div_cancel_left _ hs
      rw [hmod, hdiv]
      split_ifs <;> omega

/-- The synthetic bucket list of the default branch, seen as a mapped
residue list over `Int`. -/
lemma default_keys_as_cast (N s : Nat) :
    ((List.range N).map fun i => ((i % s : Nat) : Int)) =
      ((List.range N).map fun i => i % s).map fun m => ((m : Nat) : Int) := by
  rw [List.map_map]
  rfl

lemma count_cast_range_mod (s : Nat) (hs : 0 < s) (N j : Nat) (hj : j < s) :
    (((List.range N).map fun i => ((i % s : Nat) : Int)).count ((j : Nat) : Int)) =
      N / s + if j < N % s then 1 else 0 := by
  rw [default_keys_as_cast]
  rw [List.count_map_of_injective _ _ (fun a b hab => by exact_mod_cast hab) j]
  exact count_range_mod s hs N j hj

omit [DecidableEq K] in
lemma get_statistics_isOk (st : ShardingStatistics K)
    (hsum : sumCounts st.distribution = st.total_documents) :
    ∃ r, st.get_statistics = Except.ok r := by
  rw [ShardingStatistics.get_statistics]
  by_cases h0 : st.total_documents = 0
  · rw [if_pos h0]
    exact ⟨_, rfl⟩
  · rw [if_neg h0]
    have hne : valuesOf st ≠ [] := values_ne_nil st hsum (Nat.pos_of_ne_zero h0)
    rw [if_neg hne]
    exact ⟨_, rfl⟩

lemma sum_invariant_batch_init (name key : String) (ks : List Int) :
    sumCounts (((ShardingStatistics.init Int name key).add_documents_batch ks)).distribution =
      ((ShardingStatistics.init Int name key).add_documents_batch ks).total_documents := by
  rw [sumCounts_batch _ _ (by simp [ShardingStatistics.init, keysOf]), total_batch]
  rfl

lemma single_key_stats_ok (c : Collection) (key : String) (g : Option (Nat → Int))
    (hk : key ∈ c.fields.map Prod.fst) :
    single_key_stats c key g = Except.ok (statValue (single_key_stats c key g)) := by
  have hA : analyze_sharding c key g none =
      Except.ok ((ShardingStatistics.init Int c.name key).add_documents_batch
        (simulated_key_values g (resolve_doc_count none c.document_count))) := by
    rw [analyze_sharding, if_pos hk]
  obtain ⟨r, hr⟩ := get_statistics_isOk _ (sum_invariant_batch_init c.name key
    (simulated_key_values g (resolve_doc_count none c.document_count)))
  have h1 : single_key_stats c key g = Except.ok r := by
    rw [single_key_stats, hA]
    exact hr
  rw [h1]
  rfl

/-! ### Claim theorems -/

/-- C1: for every `ShardingStatistics` produced by `analyze_sharding`,
and after every sequence of `add_document` / `add_documents_batch` calls
on a fresh `ShardingStatistics`, the sum of the per-key counts of the
distribution equals `total_documents` exactly. -/
theorem distribution_sum_eq_total :
    (∀ (c : Collection) (key : String) (g : Option (Nat → Int)) (sample : Option Nat)
      (st : ShardingStatistics Int), analyze_sharding c key g sample = Except.ok st →
        sumCounts st.distribution = st.total_documents) ∧
    (∀ (L : Type) (_ : DecidableEq L) (name key : String) (ops : List (AddOp L)),
      sumCounts (runOps (ShardingStatistics.init L name key) ops).distribution =
        (runOps (ShardingStatistics.init L name key) ops).total_documents) := by
  constructor
  · intro c key g sample st hst
    rw [analyze_sharding] at hst
    by_cases hk : key ∈ c.fields.map Prod.fst
    · rw [if_pos hk] at hst
      simp only [Except.ok.injEq] at hst
      subst hst
      exact sum_invariant_batch_init c.name key _
    · rw [if_neg hk] at hst
      cases hst
  · intro L _ name key ops
    exact (runOps_invariant _ ops (by simp [ShardingStatistics.init, keysOf]) rfl).2

/-- Witness for C1: the invariant at a concrete analysis and a concrete
call sequence. -/
theorem distribution_sum_eq_total_witness :
    sumCounts ((ShardingStatistics.init Int "c" "id").add_documents_batch
        ((List.range 3).map fun i => (i : Int))).distribution =
      ((ShardingStatistics.init Int "c" "id").add_documents_batch
        ((List.range 3).map fun i => (i : Int))).total_documents ∧
    sumCounts (runOps (ShardingStatistics.init Int "c" "k")
        [AddOp.doc 5, AddOp.batch [1, 2, 1]]).distribution =
      (runOps (ShardingStatistics.init Int "c" "k")
        [AddOp.doc 5, AddOp.batch [1, 2, 1]]).total_documents :=
  ⟨distribution_sum_eq_total.1 threeDocCollection "id" (some fun i => (i : Int)) none _ rfl,
   distribution_sum_eq_total.2 Int inferInstance "c" "k" [AddOp.doc 5, AddOp.batch [1, 2, 1]]⟩

/-- C5: `get_type_size` is total; a string with a `maxLength` constraint
resolves to exactly `maxLength` bytes, a string with only a `minLength`
constraint to exactly `minLength` bytes, an unconstrained integer to 4
bytes, and any unrecognized type to the 50-byte fallback. -/
theorem get_type_size_spec :
    (∀ (props : Props) (m : Nat), props.maxLength = some m →
      get_type_size "string" props = m) ∧
    (∀ (props : Props) (m : Nat), props.maxLength = none → props.minLength = some m →
      get_type_size "string" props = m) ∧
    get_type_size "integer" {} = 4 ∧
    (∀ (t : String) (props : Props),
      t ≠ "string" → t ≠ "number" → t ≠ "integer" → t ≠ "boolean" →
      t ≠ "array" → t ≠ "object" → t ≠ "null" →
      get_type_size t props = 50) := by
  refine ⟨?_, ?_, rfl, ?_⟩
  · intro props m h
    simp [get_type_size, h]
  · intro props m h1 h2
    simp [get_type_size, h1, h2]
  · intro t props h1 h2 h3 h4 h5 h6 h7
    simp [get_type_size, TYPE_SIZES, h1, h2, h3, h4, h5, h6, h7]

/-- Witness for C5 at the spec's concrete inputs. -/
theorem get_type_size_spec_witness :
    get_type_size "string" {maxLength := some 50} = 50 ∧
    get_type_size "string" {minLength := some 10} = 10 ∧
    get_type_size "integer" {} = 4 ∧
    get_type_size "frobnicate" {} = 50 :=
  ⟨get_type_size_spec.1 {maxLength := some 50} 50 rfl,
   get_type_size_spec.2.1 {minLength := some 10} 10 rfl rfl,
   get_type_size_spec.2.2.1,
   get_type_size_spec.2.2.2 "frobnicate" {} (by decide) (by decide) (by decide) (by decide)
     (by decide) (by decide) (by decide)⟩

/-- C6: the estimated document size is the 24-byte wrapper overhead plus,
per field, its resolved byte size plus the 8-byte field-name overhead;
on the two-field example schema (`_id` unconstrained string, `name`
string with `maxLength` 10) this is exactly 100 bytes. -/
theorem calculate_document_size_spec :
    (∀ collection : Collection, calculate_document_size collection =
      24 + (collection.fields.map fun p => field_resolved_size p.2 + 8).sum) ∧
    calculate_document_size usersCollection = 100 :=
  ⟨fun collection => by rw [calculate_document_size, foldl_size_eq_sum], by decide⟩

/-- C7: analyzing a sharding key absent from the collection's field map
fails immediately with the key-not-found error and yields no
distribution, for every generator and sample size. -/
theorem analyze_sharding_key_not_found (c : Collection) (key : String)
    (g : Option (Nat → Int)) (sample : Option Nat)
    (h : key ∉ c.fields.map Prod.fst) :
    analyze_sharding c key g sample =
      Except.error ("Sharding key '" ++ key ++ "' not found in collection schema") := by
  rw [analyze_sharding, if_neg h]

/-- Witness for C7: a concrete absent key. -/
theorem analyze_sharding_key_not_found_witness :
    analyze_sharding threeDocCollection "nope" none none =
      Except.error ("Sharding key '" ++ "nope" ++ "' not found in collection schema") :=
  analyze_sharding_key_not_found threeDocCollection "nope" none none (by decide)

omit [DecidableEq K] in
/-- C8: when `total_documents = 0`, `get_statistics` does not fail: it
returns the distinguished empty record with `total_documents = 0`,
`unique_shard_values = 0` and the explanatory `error` flag. -/
theorem get_statistics_empty_result (st : ShardingStatistics K)
    (h : st.total_documents = 0) :
    st.get_statistics = Except.ok
      { collection := st.collection_name
        sharding_key := st.sharding_key
        total_documents := 0
        unique_shard_values := 0
        error := some "No documents in collection" } := by
  rw [ShardingStatistics.get_statistics, if_pos h]

/-- Witness for C8: the empty-result record at a fresh statistics
object. -/
theorem get_statistics_empty_result_witness :
    (ShardingStatistics.init Int "c" "k").get_statistics = Except.ok
      { collection := "c"
        sharding_key := "k"
        total_documents := 0
        unique_shard_values := 0
        error := some "No documents in collection" } :=
  get_statistics_empty_result (ShardingStatistics.init Int "c" "k") rfl

/-- C3 (counterexample to the claim as stated): with `sampleSize = 0`
supplied and `document_count = 7`, `analyze_sharding` simulates 7
documents, not the claimed 0 — Python's `sample_size or
collection.document_count` treats 0 as falsy. -/
theorem sample_size_zero_counterexample :
    Except.map ShardingStatistics.total_documents
      (analyze_sharding sevenDocCollection "id" (some fun _ => (0 : Int)) (some 0)) =
      Except.ok 7 ∧ (7 : Nat) ≠ 0 := by
  constructor
  · rfl
  · decide

/-- C3 (amended): with the sharding key present, the simulated document
count `N` equals `sampleSize` whenever a nonzero `sampleSize` is
supplied, and equals `document_count` when `sampleSize` is absent or 0;
the supplied generator is applied to exactly the indices `0 .. N-1` in
increasing order (the accumulated key-value list is literally the
generator mapped over `range N`). -/
theorem analyze_sharding_generator_trace (c : Collection) (key : String)
    (g : Nat → Int) (sample : Option Nat)
    (hk : key ∈ c.fields.map Prod.fst) :
    analyze_sharding c key (some g) sample =
      Except.ok ((ShardingStatistics.init Int c.name key).add_documents_batch
        ((List.range (match sample with
          | some n => if n = 0 then c.document_count else n
          | none => c.document_count)).map g)) ∧
    ∀ st, analyze_sharding c key (some g) sample = Except.ok st →
      st.total_documents = (match sample with
        | some n => if n = 0 then c.document_count else n
        | none => c.document_count) := by
  have hres : resolve_doc_count sample c.document_count = (match sample with
      | some n => if n = 0 then c.document_count else n
      | none => c.document_count) := by
    cases sample <;> rfl
  constructor
  · rw [analyze_sharding, if_pos hk]
    show Except.ok ((ShardingStatistics.init Int c.name key).add_documents_batch
      (simulated_key_values (some g) (resolve_doc_count sample c.document_count))) = _
    rw [show simulated_key_values (some g) (resolve_doc_count sample c.document_count) =
      (List.range (resolve_doc_count sample c.document_count)).map g from rfl, hres]
  · intro st hst
    rw [analyze_sharding, if_pos hk] at hst
    simp only [Except.ok.injEq] at hst
    subst hst
    rw [total_batch]
    rw [show simulated_key_values (some g) (resolve_doc_count sample c.document_count) =
      (List.range (resolve_doc_count sample c.document_count)).map g from rfl]
    rw [List.length_map, List.length_range, hres]
    simp [ShardingStatistics.init]

/-- Witness for the amended C3: a nonzero sample size of 100 on a
collection with 3 configured documents simulates exactly 100 documents. -/
theorem analyze_sharding_generator_trace_witness :
    analyze_sharding threeDocCollection "id" (some fun i => ((i % 5 : Nat) : Int)) (some 100) =
      Except.ok ((ShardingStatistics.init Int threeDocCollection.name "id").add_documents_batch
        ((List.range (match (some 100 : Option Nat) with
          | some n => if n = 0 then threeDocCollection.document_count else n
          | none => threeDocCollection.document_count)).map fun i => ((i % 5 : Nat) : Int))) ∧
    ∀ st, analyze_sharding threeDocCollection "id"
        (some fun i => ((i % 5 : Nat) : Int)) (some 100) = Except.ok st →
      st.total_documents = (match (some 100 : Option Nat) with
        | some n => if n = 0 then threeDocCollection.document_count else n
        | none => threeDocCollection.document_count) :=
  analyze_sharding_generator_trace threeDocCollection "id"
    (fun i => ((i % 5 : Nat) : Int)) (some 100) (by decide)

/-- C10 (counterexample to the claim as stated): an array field whose
`items` descriptor is the empty dict declares an items descriptor with
no `type` entry, yet is sized at the 16-byte array baseline
(document total 24 + 16 + 8 = 48), not at the claimed default-object
item sizing 24·5+16 = 136 (which would give 24 + 136 + 8 = 168). -/
theorem array_empty_items_counterexample :
    calculate_document_size emptyItemsCollection = 48 ∧
    calculate_document_size emptyItemsCollection ≠ 24 + (24 * 5 + 16) + 8 := by
  constructor
  · decide
  · decide

/-- C10 (amended): an array-typed field with a NON-EMPTY `items`
descriptor is sized as (baseline size of the declared item type,
defaulting to `"object"` when no `type` entry is present) · 5 + 16,
ignoring any `minLength`/`maxLength` constraints on the items; an
array-typed field whose `items` descriptor is absent — or is the empty
dict, which Python's truthiness test treats like an absent one — keeps
the 16-byte array baseline. -/
theorem array_items_sizing (f : Field) (harr : f.type = "array") :
    (∀ d : ItemsDesc, f.properties.items = some d → d.truthy = true →
      field_resolved_size f = get_type_size (d.type.getD "object") {} * 5 + 16) ∧
    (f.properties.items = none ∨ f.properties.items = some {} →
      field_resolved_size f = 16) := by
  have harr' : f.is_array = true := by
    simp [Field.is_array, harr]
  have hobj : f.is_object = false := by
    simp [Field.is_object, harr]
  constructor
  · intro d hd htr
    rw [field_resolved_size]
    rw [show f.items = f.properties.items from rfl, hd]
    simp only [harr', htr, Bool.and_self, if_pos]
    rw [hobj]
    simp
  · intro hd
    have hbase : get_type_size f.type f.properties = 16 := by
      rw [get_type_size, harr]
      simp [TYPE_SIZES]
    rcases hd with hd | hd
    · rw [field_resolved_size, show f.items = f.properties.items from rfl, hd]
      rw [hobj]
      simp [hbase]
    · rw [field_resolved_size, show f.items = f.properties.items from rfl, hd]
      rw [hobj]
      simp only [Bool.false_eq_true, if_false]
      rw [show ItemsDesc.truthy {} = false from rfl]
      simp [hbase]

/-- Witness for the amended C10: a concrete array field with
`items = {type: integer, minLength: 3}` resolves to 4·5+16 = 36 bytes,
and one with an empty items descriptor keeps the 16-byte baseline. -/
theorem array_items_sizing_witness :
    field_resolved_size taggedArrayField =
      get_type_size (((some "integer" : Option String)).getD "object") {} * 5 + 16 ∧
    field_resolved_size emptyItemsField = 16 :=
  ⟨(array_items_sizing taggedArrayField rfl).1
      {type := some "integer", minLength := some 3} rfl rfl,
   (array_items_sizing emptyItemsField rfl).2 (Or.inr rfl)⟩

omit [DecidableEq K] in
/-- C2 (amended): for every non-empty distribution satisfying the C1 sum
invariant, the EXACT (pre-rounding) balance factor is nonnegative, the
exact variance is 0 iff all per-key counts are identical, and the exact
balance factor is 0 iff the exact variance is 0 (`std_deviation` is the
square root of the variance, so it vanishes exactly with it). The
ROUNDED values reported by `get_statistics` do not satisfy this — see
the counterexample. -/
theorem statistics_zero_iff (st : ShardingStatistics K)
    (hsum : sumCounts st.distribution = st.total_documents)
    (htot : 0 < st.total_documents) :
    0 ≤ balQ st ∧
    (varQ st = 0 ↔ ∀ x ∈ valuesOf st, ∀ y ∈ valuesOf st, x = y) ∧
    (balQ st = 0 ↔ varQ st = 0) :=
  ⟨balQ_nonneg st hsum htot,
   varQ_eq_zero_iff st hsum htot,
   (balQ_eq_zero_iff st hsum htot).trans (varQ_eq_zero_iff st hsum htot).symm⟩

/-- Witness for the amended C2 at a concrete skewed distribution. -/
theorem statistics_zero_iff_witness :
    0 ≤ balQ smallSkew ∧
    (varQ smallSkew = 0 ↔ ∀ x ∈ valuesOf smallSkew, ∀ y ∈ valuesOf smallSkew, x = y) ∧
    (balQ smallSkew = 0 ↔ varQ smallSkew = 0) :=
  statistics_zero_iff smallSkew (by decide) (by decide)

lemma skew_dist : skewed200.distribution = skewDistList := rfl

lemma skew_vals : valuesOf skewed200 = List.replicate 199 1 ++ [2] := by
  rw [valuesOf, skew_dist, skewDistList, List.map_append, List.map_map]
  rw [show (Prod.snd ∘ fun (i : Nat) => ((i : Int), (1 : Nat))) = fun _ : Nat => (1 : Nat) from rfl]
  rw [List.map_const', List.length_range]
  rfl

lemma skew_len : skewed200.distribution.length = 200 := by
  rw [skew_dist, skewDistList, List.length_append, List.length_map, List.length_range]
  rfl

lemma skew_tot : skewed200.total_documents = 201 := rfl

lemma skew_avg : avgQ skewed200 = 201/200 := by
  rw [avgQ, skew_len, skew_tot]
  norm_num

lemma skew_var : varQ skewed200 = 199/40000 := by
  rw [varQ, skew_len, skew_vals]
  rw [List.map_append, List.map_replicate, List.sum_append, List.sum_replicate]
  rw [skew_avg]
  simp only [List.map_cons, List.map_nil, List.sum_cons, List.sum_nil, nsmul_eq_mul]
  norm_num

lemma skew_mem (x : Nat) (hx : x ∈ valuesOf skewed200) : x = 1 ∨ x = 2 := by
  rw [skew_vals] at hx
  rcases List.mem_append.mp hx with h | h
  · exact Or.inl (List.eq_of_mem_replicate h)
  · simp only [List.mem_singleton] at h
    exact Or.inr h

lemma skew_one_mem : 1 ∈ valuesOf skewed200 := by
  rw [skew_vals]
  exact List.mem_append.mpr (Or.inl (List.mem_replicate.mpr ⟨by norm_num, rfl⟩))

lemma skew_two_mem : 2 ∈ valuesOf skewed200 := by
  rw [skew_vals]
  exact List.mem_append.mpr (Or.inr (List.mem_singleton.mpr rfl))

lemma skew_ne_nil : valuesOf skewed200 ≠ [] := by
  rw [skew_vals]
  intro h
  have h2 := congrArg List.length h
  rw [List.length_append, List.length_replicate] at h2
  simp only [List.length_cons, List.length_nil] at h2
  omega

lemma skew_min : pymin (valuesOf skewed200) = 1 := by
  have h1 := pymin_le _ _ skew_one_mem
  have h2 := skew_mem _ (pymin_mem _ skew_ne_nil)
  omega

lemma skew_max : pymax (valuesOf skewed200) = 2 := by
  have h1 := le_pymax _ _ skew_two_mem
  have h2 := skew_mem _ (pymax_mem _ skew_ne_nil)
  omega

lemma skew_bal : balQ skewed200 = 200/201 := by
  rw [balQ, if_pos (by rw [skew_avg]; norm_num)]
  rw [skew_min, skew_max, skew_avg]
  norm_num

lemma skew_var_round : roundTo 2 (varQ skewed200) = 0 := by
  rw [skew_var, roundTo, round_eq]
  norm_num

lemma skew_bal_round : roundTo 4 (balQ skewed200) = 199/200 := by
  rw [skew_bal, roundTo, round_eq]
  norm_num

theorem rounded_statistics_counterexample :
    Except.map (fun r => (r.variance, r.balance_factor)) skewed200.get_statistics =
      Except.ok (some 0, some (199/200 : ℚ)) ∧
    ¬ ∀ x ∈ valuesOf skewed200, ∀ y ∈ valuesOf skewed200, x = y := by
  constructor
  · rw [ShardingStatistics.get_statistics,
      if_neg (by rw [skew_tot]; norm_num), if_neg skew_ne_nil]
    show Except.ok ((some (roundTo 2 (varQ skewed200)), some (roundTo 4 (balQ skewed200))) :
      Option ℚ × Option ℚ) = _
    rw [skew_var_round, skew_bal_round]
  · intro h
    have := h 1 skew_one_mem 2 skew_two_mem
    omega

lemma compare_cons (c : Collection) (key : String) (rest : List String)
    (gens : String → Option (Nat → Int)) :
    compare_sharding_strategies c (key :: rest) gens =
      match analyze_sharding c key (gens key) none with
      | Except.error e => Except.error e
      | Except.ok stats =>
        match stats.get_statistics with
        | Except.error e => Except.error e
        | Except.ok record =>
          match compare_sharding_strategies c rest gens with
          | Except.error e => Except.error e
          | Except.ok others => Except.ok (record :: others) := rfl

/-- C9: when every requested sharding key is present in the field map,
`compare_sharding_strategies` returns exactly one statistics record per
key, in input order, and each record is the record of an independent
`analyze_sharding` + `get_statistics` run on that key with the same
generator and no sample size. -/
theorem compare_strategies_matches_single (c : Collection) (keys : List String)
    (gens : String → Option (Nat → Int))
    (h : ∀ k ∈ keys, k ∈ c.fields.map Prod.fst) :
    compare_sharding_strategies c keys gens =
      Except.ok (keys.map fun k => statValue (single_key_stats c k (gens k))) ∧
    ∀ k ∈ keys, single_key_stats c k (gens k) =
      Except.ok (statValue (single_key_stats c k (gens k))) := by
  have main : ∀ ks : List String, (∀ k ∈ ks, k ∈ c.fields.map Prod.fst) →
      compare_sharding_strategies c ks gens =
        Except.ok (ks.map fun k => statValue (single_key_stats c k (gens k))) := by
    intro ks
    induction ks with
    | nil =>
      intro _
      rfl
    | cons key rest ih =>
      intro hks
      have hk := hks key (List.mem_cons_self _ _)
      have hA : analyze_sharding c key (gens key) none =
          Except.ok ((ShardingStatistics.init Int c.name key).add_documents_batch
            (simulated_key_values (gens key) (resolve_doc_count none c.document_count))) := by
        rw [analyze_sharding, if_pos hk]
      obtain ⟨r, hr⟩ := get_statistics_isOk _ (sum_invariant_batch_init c.name key
        (simulated_key_values (gens key) (resolve_doc_count none c.document_count)))
      have hs1 : single_key_stats c key (gens key) = Except.ok r := by
        rw [single_key_stats, hA]
        exact hr
      have hsv : statValue (single_key_stats c key (gens key)) = r := by
        rw [hs1]
        rfl
      have hrest := ih fun k hk2 => hks k (List.mem_cons_of_mem _ hk2)
      rw [compare_cons]
      simp only [List.map_cons, hsv, hA, hr, hrest]
  exact ⟨main keys h, fun k hk => single_key_stats_ok c k (gens k) (h k hk)⟩

/-- Witness for C9 on a concrete two-key collection. -/
theorem compare_strategies_matches_single_witness :
    compare_sharding_strategies twoKeyCollection ["id", "name"] (fun _ => none) =
      Except.ok ((["id", "name"]).map fun k =>
        statValue (single_key_stats twoKeyCollection k ((fun _ => none) k))) ∧
    ∀ k ∈ ["id", "name"], single_key_stats twoKeyCollection k ((fun _ => none) k) =
      Except.ok (statValue (single_key_stats twoKeyCollection k ((fun _ => none) k))) :=
  compare_strategies_matches_single twoKeyCollection ["id", "name"] (fun _ => none) (by decide)

/-- The distribution built by the default (no-generator) branch over
`N > 0` simulated documents has exactly `default_shard_count N` keys and
each per-key count is `N / s` or `N / s + 1`. -/
lemma default_batch_spec (name key : String) (N : Nat) (hN : 0 < N) :
    ((ShardingStatistics.init Int name key).add_documents_batch
      ((List.range N).map fun i =>
        ((i % default_shard_count N : Nat) : Int))).distribution.length =
      default_shard_count N ∧
    ∀ p ∈ ((ShardingStatistics.init Int name key).add_documents_batch
      ((List.range N).map fun i =>
        ((i % default_shard_count N : Nat) : Int))).distribution,
      p.2 = N / default_shard_count N ∨ p.2 = N / default_shard_count N + 1 := by
  have hs : 0 < default_shard_count N := by
    rw [default_shard_count]
    omega
  have hsN : default_shard_count N ≤ N := by
    rw [default_shard_count]
    have := Nat.div_le_self N 100
    omega
  have hinitnodup : (keysOf (ShardingStatistics.init Int name key).distribution).Nodup := by
    simp [ShardingStatistics.init, keysOf]
  have hnodup : (keysOf ((ShardingStatistics.init Int name key).add_documents_batch
      ((List.range N).map fun i =>
        ((i % default_shard_count N : Nat) : Int))).distribution).Nodup :=
    nodup_keys_batch _ _ hinitnodup
  have hmem : ∀ x : Int,
      x ∈ keysOf ((ShardingStatistics.init Int name key).add_documents_batch
        ((List.range N).map fun i =>
          ((i % default_shard_count N : Nat) : Int))).distribution ↔
      x ∈ (List.range (default_shard_count N)).map fun (j : Nat) => (j : Int) := by
    intro x
    rw [mem_keys_batch]
    constructor
    · rintro (hx | hx)
      · simp [ShardingStatistics.init, keysOf] at hx
      · rcases List.mem_map.mp hx with ⟨i, _, rfl⟩
        exact List.mem_map.mpr
          ⟨i % default_shard_count N, List.mem_range.mpr (Nat.mod_lt i hs), rfl⟩
    · intro hx
      rcases List.mem_map.mp hx with ⟨j, hj, rfl⟩
      have hjs := List.mem_range.mp hj
      right
      refine List.mem_map.mpr ⟨j, List.mem_range.mpr (lt_of_lt_of_le hjs hsN), ?_⟩
      rw [Nat.mod_eq_of_lt hjs]
  have hrs_nodup : ((List.range (default_shard_count N)).map fun (j : Nat) => (j : Int)).Nodup :=
    (List.nodup_range _).map fun a b hab => by exact_mod_cast hab
  constructor
  · have h1 : (keysOf ((ShardingStatistics.init Int name key).add_documents_batch
        ((List.range N).map fun i =>
          ((i % default_shard_count N : Nat) : Int))).distribution).length =
        ((ShardingStatistics.init Int name key).add_documents_batch
          ((List.range N).map fun i =>
            ((i % default_shard_count N : Nat) : Int))).distribution.length :=
      List.length_map _ _
    have h2 : (keysOf ((ShardingStatistics.init Int name key).add_documents_batch
        ((List.range N).map fun i =>
          ((i % default_shard_count N : Nat) : Int))).distribution).toFinset =
        ((List.range (default_shard_count N)).map fun (j : Nat) => (j : Int)).toFinset := by
      apply Finset.ext
      intro x
      rw [List.mem_toFinset, List.mem_toFinset]
      exact hmem x
    have h3 := List.toFinset_card_of_nodup hnodup
    have h4 := List.toFinset_card_of_nodup hrs_nodup
    rw [h2, h4] at h3
    rw [List.length_map, List.length_range] at h3
    omega
  · intro p hp
    have hpk := List.mem_map_of_mem Prod.fst hp
    have hpks := (hmem p.1).mp hpk
    rcases List.mem_map.mp hpks with ⟨j, hj, hpj⟩
    have hjs := List.mem_range.mp hj
    have hc := entry_eq_countOf _ p hnodup hp
    have hcb := countOf_batch (ShardingStatistics.init Int name key)
      ((List.range N).map fun i => ((i % default_shard_count N : Nat) : Int)) p.1 hinitnodup
    have hcount0 : countOf (ShardingStatistics.init Int name key).distribution p.1 = 0 := rfl
    have hkc : ((List.range N).map fun i =>
        ((i % default_shard_count N : Nat) : Int)).count p.1 =
        N / default_shard_count N + if j < N % default_shard_count N then 1 else 0 := by
      rw [← hpj]
      exact count_cast_range_mod _ hs N j hjs
    rw [hcount0, hkc] at hcb
    rw [hcb] at hc
    by_cases hcase : j < N % default_shard_count N
    · rw [if_pos hcase] at hc
      omega
    · rw [if_neg hcase] at hc
      omega

/-- C4: with no generator and a positive resolved document count `N`,
`analyze_sharding` assigns document `i` to synthetic integer bucket
`i mod s` with `s = min(10, max(1, N / 100))` buckets; the resulting
distribution has exactly `s` distinct key values and any two per-bucket
counts differ by at most 1 (each count is `N / s` or `N / s + 1`). -/
theorem analyze_default_distribution (c : Collection) (key : String) (sample : Option Nat)
    (hk : key ∈ c.fields.map Prod.fst)
    (hN : 0 < resolve_doc_count sample c.document_count) :
    analyze_sharding c key none sample =
      Except.ok ((ShardingStatistics.init Int c.name key).add_documents_batch
        ((List.range (resolve_doc_count sample c.document_count)).map fun i =>
          ((i % default_shard_count (resolve_doc_count sample c.document_count) : Nat) : Int))) ∧
    ∀ st, analyze_sharding c key none sample = Except.ok st →
      st.distribution.length =
        default_shard_count (resolve_doc_count sample c.document_count) ∧
      (∀ p ∈ st.distribution,
        p.2 = resolve_doc_count sample c.document_count /
            default_shard_count (resolve_doc_count sample c.document_count) ∨
        p.2 = resolve_doc_count sample c.document_count /
            default_shard_count (resolve_doc_count sample c.document_count) + 1) ∧
      (∀ p ∈ st.distribution, ∀ q ∈ st.distribution, p.2 ≤ q.2 + 1) := by
  have hspec := default_batch_spec c.name key (resolve_doc_count sample c.document_count) hN
  constructor
  · rw [analyze_sharding, if_pos hk]
    rfl
  · intro st hst
    rw [analyze_sharding, if_pos hk] at hst
    simp only [Except.ok.injEq] at hst
    subst hst
    refine ⟨hspec.1, hspec.2, ?_⟩
    intro p hp q hq
    rcases hspec.2 p hp with h1 | h1 <;> rcases hspec.2 q hq with h2 | h2 <;> omega

/-- Witness for C4 on a collection with 250 configured documents:
N = 250, so there are min(10, max(1, 2)) = 2 buckets of 125 documents. -/
theorem analyze_default_distribution_witness :
    analyze_sharding bigCollection "id" none none =
      Except.ok ((ShardingStatistics.init Int bigCollection.name "id").add_documents_batch
        ((List.range (resolve_doc_count none bigCollection.document_count)).map fun i =>
          ((i % default_shard_count (resolve_doc_count none bigCollection.document_count) :
            Nat) : Int))) ∧
    ∀ st, analyze_sharding bigCollection "id" none none = Except.ok st →
      st.distribution.length =
        default_shard_count (resolve_doc_count none bigCollection.document_count) ∧
      (∀ p ∈ st.distribution,
        p.2 = resolve_doc_count none bigCollection.document_count /
            default_shard_count (resolve_doc_count none bigCollection.document_count) ∨
        p.2 = resolve_doc_count none bigCollection.document_count /
            default_shard_count (resolve_doc_count none bigCollection.document_count) + 1) ∧
      (∀ p ∈ st.distribution, ∀ q ∈ st.distribution, p.2 ≤ q.2 + 1) :=
  analyze_default_distribution bigCollection "id" none (by decide) (by decide)

end SchemaAnalyser
